import Mathlib

/-!
Verification of the environment configuration client
(`pkg/kf/environment_client.go`).

The client reads and mutates the environment-variable list of a single
service resource through two external collaborators: an App Lister
(resolves a namespace/app-name filter to a list of service resources)
and a Serving Factory (yields a handle whose `Update` persists a
resource).  We embed the client shallowly: the collaborators' responses
for the one namespace/app-name pair under consideration are fields of an
explicit `World` state, Go's `map[string]string` becomes an association
list written only through `mapInsert` (insert overwrites, as in Go), and
each operation is a pure function from a `World` to a result paired with
the successor `World`.  Call counters record every upstream invocation.
-/

/-- Embeds corev1.EnvVar: one name/value environment pair. -/
structure EnvVar where
  name : String
  value : String
deriving DecidableEq, Repr

/-- The container template holding the `Env` list
(`…RevisionTemplate.Spec.Container`); fields other than `Env` are
collapsed into `containerRest`. -/
structure Container where
  env : List EnvVar
  containerRest : String
deriving DecidableEq, Repr

/-- Embeds RevisionTemplate.Spec; the fields beside `Container` are
collapsed into `revisionSpecRest`. -/
structure RevisionSpec where
  container : Container
  revisionSpecRest : String
deriving DecidableEq, Repr

/-- Embeds Configuration.RevisionTemplate. -/
structure RevisionTemplate where
  spec : RevisionSpec
  revisionTemplateRest : String
deriving DecidableEq, Repr

/-- Embeds RunLatest.Configuration. -/
structure Configuration where
  revisionTemplate : RevisionTemplate
  configurationRest : String
deriving DecidableEq, Repr

/-- Embeds Spec.RunLatest. -/
structure RunLatest where
  configuration : Configuration
  runLatestRest : String
deriving DecidableEq, Repr

/-- Embeds serving.Service.Spec. -/
structure ServiceSpec where
  runLatest : RunLatest
  serviceSpecRest : String
deriving DecidableEq, Repr

/-- Embeds serving.Service: the platform resource; only the nested env list is
ever rewritten by the client. -/
structure Service where
  spec : ServiceSpec
  serviceRest : String
deriving DecidableEq, Repr

/-- The env list at `s.Spec.RunLatest.Configuration.RevisionTemplate.Spec.Container.Env`. -/
def Service.envOf (s : Service) : List EnvVar :=
  s.spec.runLatest.configuration.revisionTemplate.spec.container.env

/-- Replace the nested env list, leaving every other field alone — the
Go assignment writing the nested Env field. -/
def Service.withEnv (s : Service) (e : List EnvVar) : Service :=
  { s with spec := { s.spec with runLatest := { s.spec.runLatest with
      configuration := { s.spec.runLatest.configuration with
        revisionTemplate := { s.spec.runLatest.configuration.revisionTemplate with
          spec := { s.spec.runLatest.configuration.revisionTemplate.spec with
            container := { s.spec.runLatest.configuration.revisionTemplate.spec.container with
              env := e } } } } } } }

/-- A Go `map[string]string`, as an association list whose entries are
only ever created through `mapInsert`. -/
abbrev EnvMap := List (String × String)

/-- Go map assignment `m[k] = v`: overwrite the binding if present,
otherwise add one. -/
def mapInsert (m : EnvMap) (k v : String) : EnvMap :=
  match m with
  | [] => [(k, v)]
  | (k₀, v₀) :: rest =>
    if k₀ = k then (k, v) :: rest else (k₀, v₀) :: mapInsert rest k v

/-- Go map read `m[k]` (as `value, ok`). -/
def mapLookup (m : EnvMap) (k : String) : Option String :=
  match m with
  | [] => none
  | (k₀, v₀) :: rest => if k₀ = k then some v₀ else mapLookup rest k

/-- The keys of a map, in entry order. -/
def mapKeys (m : EnvMap) : List String := m.map Prod.fst

/-- The loop of `List` (and the first loop of `dedupeEnvs`): build a map
from the env list, later entries overwriting earlier ones. -/
def envListToMap (envs : List EnvVar) : EnvMap :=
  envs.foldl (fun m e => mapInsert m e.name e.value) []

/-- Embeds dedupeEnvs: collapse the existing list into a fresh map, then
overlay every caller-supplied entry, so callers win on conflicts. -/
def dedupeEnvs (values : EnvMap) (envs : List EnvVar) : EnvMap :=
  let newValues := envs.foldl (fun m e => mapInsert m e.name e.value) []
  values.foldl (fun m p => mapInsert m p.1 p.2) newValues

/-- Embeds mapToEnvs: serialize a map back into an env list. -/
def mapToEnvs (values : EnvMap) : List EnvVar :=
  values.map (fun p => { name := p.1, value := p.2 })

/-- Embeds removeEnvs: build the removal set from `names`, then keep (by
appending to a fresh list) exactly the pairs whose name is not in it. -/
def removeEnvs (names : List String) (envs : List EnvVar) : List EnvVar :=
  let m : String → Bool := fun n => names.contains n
  envs.foldl (fun newValues env =>
    if m env.name then newValues else newValues ++ [env]) []

/-- Errors are the Go error strings. -/
abbrev Err := String

/-- The error of errors.New with text invalid app name. -/
def invalidAppNameMsg : Err := "invalid app name"

/-- The error built by fmt.Errorf for an unknown app. -/
def unknownAppMsg (appName : String) : Err :=
  "unknown app: " ++ "'" ++ appName ++ "'"

/-- The externally visible state for one namespace/app-name pair: what
the App Lister answers, what the Serving Factory answers, whether the
platform accepts an update (`none`) or rejects it with an error, and how
often each collaborator has been invoked. -/
structure World where
  listerResult : Except Err (List Service)
  factoryResult : Except Err Unit
  updateError : Option Err
  listerCalls : Nat
  factoryCalls : Nat
  updateCalls : Nat

/-- Embeds fetchService: ask the App Lister, then demand exactly one match;
the Go guard is len(services) != 1, so a singleton succeeds with
its element and both zero and several matches yield the unknown-app
error. -/
def fetchService (w : World) (appName : String) : Except Err Service × World :=
  let w₁ := { w with listerCalls := w.listerCalls + 1 }
  match w₁.listerResult with
  | .error e => (.error e, w₁)
  | .ok [s] => (.ok s, w₁)
  | .ok _ => (.error (unknownAppMsg appName), w₁)

/-- Embeds the Update call on the serving client: the platform either rejects the
write (state unchanged) or stores `s`, after which the lister — absent
external mutation — returns exactly the stored resource. -/
def update (w : World) (s : Service) : Except Err Unit × World :=
  let w₁ := { w with updateCalls := w.updateCalls + 1 }
  match w₁.updateError with
  | some e => (.error e, w₁)
  | none => (.ok (), { w₁ with listerResult := .ok [s] })

/-- Embeds EnvironmentClient.List. -/
def listEnv (w : World) (appName : String) : Except Err EnvMap × World :=
  if appName = "" then (.error invalidAppNameMsg, w)
  else
    match fetchService w appName with
    | (.error e, w₁) => (.error e, w₁)
    | (.ok s, w₁) => (.ok (envListToMap s.envOf), w₁)

/-- Embeds EnvironmentClient.Set. -/
def setEnv (w : World) (appName : String) (values : EnvMap) :
    Except Err Unit × World :=
  if appName = "" then (.error invalidAppNameMsg, w)
  else
    let w₁ := { w with factoryCalls := w.factoryCalls + 1 }
    match w₁.factoryResult with
    | .error e => (.error e, w₁)
    | .ok _ =>
      match fetchService w₁ appName with
      | (.error e, w₂) => (.error e, w₂)
      | (.ok s, w₂) =>
        let newValues := dedupeEnvs values s.envOf
        update w₂ (s.withEnv (mapToEnvs newValues))

/-- Embeds EnvironmentClient.Unset. -/
def unsetEnv (w : World) (appName : String) (names : List String) :
    Except Err Unit × World :=
  if appName = "" then (.error invalidAppNameMsg, w)
  else
    let w₁ := { w with factoryCalls := w.factoryCalls + 1 }
    match w₁.factoryResult with
    | .error e => (.error e, w₁)
    | .ok _ =>
      match fetchService w₁ appName with
      | (.error e, w₂) => (.error e, w₂)
      | (.ok s, w₂) =>
        let newValues := removeEnvs names s.envOf
        update w₂ (s.withEnv newValues)

/-- The resource currently persisted for the app, when it is unique. -/
def storedService (w : World) : Option Service :=
  match w.listerResult with
  | .ok [s] => some s
  | _ => none

/-- The persisted env list, when the stored resource is unique. -/
def storedEnv (w : World) : Option (List EnvVar) :=
  (storedService w).map Service.envOf

/-- Spec-side description of the mapping built from an env list: insert
each pair in list order, so for a duplicated name the last occurrence
wins; here evaluated at one key. -/
def lastValue (envs : List EnvVar) (k : String) : Option String :=
  envs.foldl (fun acc e => if e.name = k then some e.value else acc) none

/-- Spec-side frame condition: the two services agree on every field
other than the nested env list. -/
def sameExceptEnv (s t : Service) : Prop :=
  s.serviceRest = t.serviceRest ∧
  s.spec.serviceSpecRest = t.spec.serviceSpecRest ∧
  s.spec.runLatest.runLatestRest = t.spec.runLatest.runLatestRest ∧
  s.spec.runLatest.configuration.configurationRest =
    t.spec.runLatest.configuration.configurationRest ∧
  s.spec.runLatest.configuration.revisionTemplate.revisionTemplateRest =
    t.spec.runLatest.configuration.revisionTemplate.revisionTemplateRest ∧
  s.spec.runLatest.configuration.revisionTemplate.spec.revisionSpecRest =
    t.spec.runLatest.configuration.revisionTemplate.spec.revisionSpecRest ∧
  s.spec.runLatest.configuration.revisionTemplate.spec.container.containerRest =
    t.spec.runLatest.configuration.revisionTemplate.spec.container.containerRest

lemma envOf_withEnv (s : Service) (e : List EnvVar) :
    (s.withEnv e).envOf = e := rfl

lemma withEnv_envOf (s : Service) : s.withEnv s.envOf = s := by
  obtain ⟨⟨⟨⟨⟨⟨⟨env, cr⟩, rsr⟩, rtr⟩, cfr⟩, rlr⟩, ssr⟩, sr⟩ := s
  rfl

lemma sameExceptEnv_withEnv (s : Service) (e : List EnvVar) :
    sameExceptEnv (s.withEnv e) s :=
  ⟨rfl, rfl, rfl, rfl, rfl, rfl, rfl⟩

lemma mapLookup_mapInsert (m : EnvMap) (k v k₁ : String) :
    mapLookup (mapInsert m k v) k₁ =
      if k = k₁ then some v else mapLookup m k₁ := by
  induction m with
  | nil => simp [mapInsert, mapLookup]
  | cons p rest ih =>
    obtain ⟨k₀, v₀⟩ := p
    by_cases h : k₀ = k
    · subst h
      by_cases h₁ : k₀ = k₁ <;> simp [mapInsert, mapLookup, h₁]
    · by_cases h₁ : k₀ = k₁
      · subst h₁
        have hne : k ≠ k₀ := fun hk => h hk.symm
        simp [mapInsert, mapLookup, h, hne]
      · simp [mapInsert, mapLookup, h, h₁, ih]

lemma mapLookup_foldl_env (envs : List EnvVar) (init : EnvMap) (k : String) :
    mapLookup (envs.foldl (fun m e => mapInsert m e.name e.value) init) k =
      envs.foldl (fun acc e => if e.name = k then some e.value else acc)
        (mapLookup init k) := by
  induction envs generalizing init with
  | nil => rfl
  | cons e rest ih =>
    simp only [List.foldl_cons, ih, mapLookup_mapInsert]

lemma mapLookup_foldl_pair (l : List (String × String)) (init : EnvMap)
    (k : String) :
    mapLookup (l.foldl (fun m p => mapInsert m p.1 p.2) init) k =
      l.foldl (fun acc p => if p.1 = k then some p.2 else acc)
        (mapLookup init k) := by
  induction l generalizing init with
  | nil => rfl
  | cons p rest ih =>
    simp only [List.foldl_cons, ih, mapLookup_mapInsert]

lemma mapLookup_envListToMap (envs : List EnvVar) (k : String) :
    mapLookup (envListToMap envs) k = lastValue envs k := by
  simpa [envListToMap, mapLookup] using mapLookup_foldl_env envs [] k

lemma foldl_const_of_not_mem (l : List (String × String)) (k : String)
    (acc : Option String) (h : k ∉ mapKeys l) :
    l.foldl (fun acc p => if p.1 = k then some p.2 else acc) acc = acc := by
  induction l generalizing acc with
  | nil => rfl
  | cons p rest ih =>
    simp only [mapKeys, List.map_cons, List.mem_cons] at h
    push_neg at h
    have h₁ : p.1 ≠ k := fun hk => h.1 hk.symm
    simp only [List.foldl_cons, if_neg h₁]
    exact ih acc (by simpa [mapKeys] using h.2)

lemma foldl_lastwins_of_nodup (l : List (String × String)) (k : String)
    (acc : Option String) (h : (mapKeys l).Nodup) :
    l.foldl (fun acc p => if p.1 = k then some p.2 else acc) acc =
      match mapLookup l k with
      | some v => some v
      | none => acc := by
  induction l generalizing acc with
  | nil => rfl
  | cons p rest ih =>
    obtain ⟨k₀, v₀⟩ := p
    simp only [mapKeys, List.map_cons, List.nodup_cons] at h
    by_cases hk : k₀ = k
    · subst hk
      simp only [List.foldl_cons, if_pos rfl, mapLookup, if_pos rfl]
      exact foldl_const_of_not_mem rest k₀ (some v₀) (by simpa [mapKeys] using h.1)
    · simp only [List.foldl_cons, if_neg hk, mapLookup, if_neg hk]
      exact ih acc (by simpa [mapKeys] using h.2)

lemma mapKeys_mapInsert_mem (m : EnvMap) (k v : String)
    (h : k ∈ mapKeys m) : mapKeys (mapInsert m k v) = mapKeys m := by
  induction m with
  | nil => simp [mapKeys] at h
  | cons p rest ih =>
    obtain ⟨k₀, v₀⟩ := p
    by_cases hk : k₀ = k
    · subst hk
      simp [mapInsert, mapKeys]
    · simp only [mapKeys, List.map_cons, List.mem_cons] at h
      rcases h with h | h
      · exact absurd h.symm hk
      · have ih₁ : mapKeys (mapInsert rest k v) = mapKeys rest :=
          ih (by simpa [mapKeys] using h)
        simp only [mapKeys, List.map_cons] at ih₁ ⊢
        simp only [mapInsert, if_neg hk, List.map_cons]
        rw [ih₁]

lemma mapKeys_mapInsert_not_mem (m : EnvMap) (k v : String)
    (h : k ∉ mapKeys m) : mapKeys (mapInsert m k v) = mapKeys m ++ [k] := by
  induction m with
  | nil => simp [mapInsert, mapKeys]
  | cons p rest ih =>
    obtain ⟨k₀, v₀⟩ := p
    simp only [mapKeys, List.map_cons, List.mem_cons] at h
    push_neg at h
    have hk : k₀ ≠ k := fun hh => h.1 hh.symm
    have ih₁ : mapKeys (mapInsert rest k v) = mapKeys rest ++ [k] :=
      ih (by simpa [mapKeys] using h.2)
    simp only [mapKeys, List.map_cons] at ih₁ ⊢
    simp only [mapInsert, if_neg hk, List.map_cons]
    rw [ih₁]
    simp

lemma nodup_mapKeys_mapInsert (m : EnvMap) (k v : String)
    (h : (mapKeys m).Nodup) : (mapKeys (mapInsert m k v)).Nodup := by
  by_cases hk : k ∈ mapKeys m
  · rwa [mapKeys_mapInsert_mem m k v hk]
  · rw [mapKeys_mapInsert_not_mem m k v hk]
    simp [List.nodup_append, h, hk]

lemma nodup_mapKeys_foldl_env (envs : List EnvVar) (init : EnvMap)
    (h : (mapKeys init).Nodup) :
    (mapKeys (envs.foldl (fun m e => mapInsert m e.name e.value) init)).Nodup := by
  induction envs generalizing init with
  | nil => exact h
  | cons e rest ih =>
    exact ih (mapInsert init e.name e.value)
      (nodup_mapKeys_mapInsert init e.name e.value h)

lemma nodup_mapKeys_foldl_pair (l : List (String × String)) (init : EnvMap)
    (h : (mapKeys init).Nodup) :
    (mapKeys (l.foldl (fun m p => mapInsert m p.1 p.2) init)).Nodup := by
  induction l generalizing init with
  | nil => exact h
  | cons p rest ih =>
    exact ih (mapInsert init p.1 p.2) (nodup_mapKeys_mapInsert init p.1 p.2 h)

lemma nodup_mapKeys_dedupeEnvs (values : EnvMap) (envs : List EnvVar) :
    (mapKeys (dedupeEnvs values envs)).Nodup := by
  unfold dedupeEnvs
  exact nodup_mapKeys_foldl_pair values _
    (nodup_mapKeys_foldl_env envs [] (by simp [mapKeys]))

lemma mapInsert_of_not_mem (m : EnvMap) (k v : String)
    (h : k ∉ mapKeys m) : mapInsert m k v = m ++ [(k, v)] := by
  induction m with
  | nil => rfl
  | cons p rest ih =>
    obtain ⟨k₀, v₀⟩ := p
    simp only [mapKeys, List.map_cons, List.mem_cons] at h
    push_neg at h
    have hk : k₀ ≠ k := fun hh => h.1 hh.symm
    simp [mapInsert, hk, ih (by simpa [mapKeys] using h.2)]

lemma foldl_insert_mapToEnvs (m : EnvMap) (init : EnvMap)
    (hnd : (mapKeys m).Nodup) (hdisj : ∀ k ∈ mapKeys m, k ∉ mapKeys init) :
    (mapToEnvs m).foldl (fun acc e => mapInsert acc e.name e.value) init =
      init ++ m := by
  induction m generalizing init with
  | nil => simp [mapToEnvs]
  | cons p rest ih =>
    obtain ⟨k, v⟩ := p
    simp only [mapKeys, List.map_cons, List.nodup_cons] at hnd
    have hki : k ∉ mapKeys init := hdisj k (by simp [mapKeys])
    have hstep : (mapToEnvs ((k, v) :: rest)).foldl
          (fun acc e => mapInsert acc e.name e.value) init =
        (mapToEnvs rest).foldl (fun acc e => mapInsert acc e.name e.value)
          (mapInsert init k v) := rfl
    rw [hstep]
    have hins : mapInsert init k v = init ++ [(k, v)] :=
      mapInsert_of_not_mem init k v hki
    have hdisj₁ : ∀ k₁ ∈ mapKeys rest, k₁ ∉ mapKeys (init ++ [(k, v)]) := by
      intro k₁ hk₁
      simp only [mapKeys, List.map_append, List.map_cons, List.map_nil,
        List.mem_append, List.mem_cons, List.not_mem_nil] at *
      push_neg
      refine ⟨fun hmem => hdisj k₁ (Or.inr hk₁) hmem, ?_, fun hf => hf.elim⟩
      intro hkk
      exact hnd.1 (by simpa [hkk] using hk₁)
    have hrec := ih (init ++ [(k, v)]) (by simpa [mapKeys] using hnd.2) hdisj₁
    calc (mapToEnvs rest).foldl (fun acc e => mapInsert acc e.name e.value)
          (mapInsert init k v)
        = (mapToEnvs rest).foldl (fun acc e => mapInsert acc e.name e.value)
            (init ++ [(k, v)]) := by rw [hins]
      _ = (init ++ [(k, v)]) ++ rest := hrec
      _ = init ++ (k, v) :: rest := by simp

lemma envListToMap_mapToEnvs (m : EnvMap) (hnd : (mapKeys m).Nodup) :
    envListToMap (mapToEnvs m) = m := by
  have := foldl_insert_mapToEnvs m [] hnd (by simp [mapKeys])
  simpa [envListToMap] using this

lemma foldl_keep_eq_filter (names : List String) (envs : List EnvVar)
    (acc : List EnvVar) :
    envs.foldl (fun newValues env =>
        if names.contains env.name then newValues else newValues ++ [env]) acc =
      acc ++ envs.filter (fun e => !(names.contains e.name)) := by
  induction envs generalizing acc with
  | nil => simp
  | cons e rest ih =>
    simp only [List.foldl_cons]
    rw [ih (if names.contains e.name then acc else acc ++ [e])]
    by_cases h : e.name ∈ names
    · simp [List.filter_cons, h]
    · simp [List.filter_cons, h]

lemma removeEnvs_eq_filter (names : List String) (envs : List EnvVar) :
    removeEnvs names envs =
      envs.filter (fun e => !(names.contains e.name)) := by
  have h := foldl_keep_eq_filter names envs []
  simpa [removeEnvs] using h

lemma mapLookup_dedupeEnvs (values : EnvMap) (envs : List EnvVar) (k : String)
    (hv : (mapKeys values).Nodup) :
    mapLookup (dedupeEnvs values envs) k =
      match mapLookup values k with
      | some v => some v
      | none => lastValue envs k := by
  have h₀ : dedupeEnvs values envs =
      values.foldl (fun m p => mapInsert m p.1 p.2)
        (envs.foldl (fun m e => mapInsert m e.name e.value) []) := rfl
  rw [h₀, mapLookup_foldl_pair]
  rw [show mapLookup (envs.foldl (fun m e => mapInsert m e.name e.value) []) k
      = lastValue envs k from mapLookup_envListToMap envs k]
  exact foldl_lastwins_of_nodup values k (lastValue envs k) hv

lemma fetchService_singleton (w : World) (app : String) (s : Service)
    (hl : w.listerResult = .ok [s]) :
    fetchService w app =
      (.ok s, { w with listerCalls := w.listerCalls + 1 }) := by
  unfold fetchService
  simp [hl]

lemma listEnv_run (w : World) (app : String) (s : Service)
    (happ : app ≠ "") (hl : w.listerResult = .ok [s]) :
    listEnv w app =
      (.ok (envListToMap s.envOf),
       { w with listerCalls := w.listerCalls + 1 }) := by
  unfold listEnv
  rw [if_neg happ, fetchService_singleton w app s hl]

lemma setEnv_run (w : World) (app : String) (values : EnvMap) (s : Service)
    (happ : app ≠ "") (hl : w.listerResult = .ok [s])
    (hf : w.factoryResult = .ok ()) (hu : w.updateError = none) :
    setEnv w app values =
      (.ok (),
       { w with
          listerResult :=
            .ok [s.withEnv (mapToEnvs (dedupeEnvs values s.envOf))],
          listerCalls := w.listerCalls + 1,
          factoryCalls := w.factoryCalls + 1,
          updateCalls := w.updateCalls + 1 }) := by
  unfold setEnv update
  rw [if_neg happ]
  simp [fetchService, hl, hf, hu]

lemma unsetEnv_run (w : World) (app : String) (names : List String)
    (s : Service)
    (happ : app ≠ "") (hl : w.listerResult = .ok [s])
    (hf : w.factoryResult = .ok ()) (hu : w.updateError = none) :
    unsetEnv w app names =
      (.ok (),
       { w with
          listerResult := .ok [s.withEnv (removeEnvs names s.envOf)],
          listerCalls := w.listerCalls + 1,
          factoryCalls := w.factoryCalls + 1,
          updateCalls := w.updateCalls + 1 }) := by
  unfold unsetEnv update
  rw [if_neg happ]
  simp [fetchService, hl, hf, hu]

lemma setEnv_store_changed (w : World) (app : String) (values : EnvMap) :
    ((setEnv w app values).2).listerResult = w.listerResult ∨
    (setEnv w app values).1 = .ok () := by
  unfold setEnv update fetchService
  by_cases happ : app = ""
  · simp [happ]
  · rw [if_neg happ]
    rcases hf : w.factoryResult with ef | u
    · simp [hf]
    · rcases hl : w.listerResult with el | services
      · simp [hf, hl]
      · rcases services with _ | ⟨a, _ | ⟨b, t⟩⟩
        · simp [hf, hl]
        · rcases hu : w.updateError with _ | eu
          · simp [hf, hl, hu]
          · simp [hf, hl, hu]
        · simp [hf, hl]

lemma unsetEnv_store_changed (w : World) (app : String) (names : List String) :
    ((unsetEnv w app names).2).listerResult = w.listerResult ∨
    (unsetEnv w app names).1 = .ok () := by
  unfold unsetEnv update fetchService
  by_cases happ : app = ""
  · simp [happ]
  · rw [if_neg happ]
    rcases hf : w.factoryResult with ef | u
    · simp [hf]
    · rcases hl : w.listerResult with el | services
      · simp [hf, hl]
      · rcases services with _ | ⟨a, _ | ⟨b, t⟩⟩
        · simp [hf, hl]
        · rcases hu : w.updateError with _ | eu
          · simp [hf, hl, hu]
          · simp [hf, hl, hu]
        · simp [hf, hl]

lemma fetchService_not_singleton (w : World) (app : String)
    (services : List Service)
    (hl : w.listerResult = .ok services) (hlen : services.length ≠ 1) :
    fetchService w app =
      (.error (unknownAppMsg app),
       { w with listerCalls := w.listerCalls + 1 }) := by
  unfold fetchService
  rcases services with _ | ⟨a, _ | ⟨b, t⟩⟩
  · simp [hl]
  · simp at hlen
  · simp [hl]

lemma withEnv_withEnv (s : Service) (e₁ e₂ : List EnvVar) :
    (s.withEnv e₁).withEnv e₂ = s.withEnv e₂ := rfl

/-- A sample application name for the closed instances below. -/
def sampleApp : String := "my-app"

/-- The env list of the worked spec example for Unset. -/
def sampleEnv : List EnvVar :=
  [⟨"A", "1"⟩, ⟨"B", "2"⟩, ⟨"C", "3"⟩]

/-- Builds a service with a given env list and fixed remaining fields. -/
def mkService (envs : List EnvVar) : Service :=
  ⟨⟨⟨⟨⟨⟨⟨envs, "container"⟩, "revisionSpec"⟩, "revisionTemplate"⟩,
    "configuration"⟩, "runLatest"⟩, "serviceSpec"⟩, "service"⟩

/-- The single stored resource of the healthy sample world. -/
def sampleService : Service := mkService sampleEnv

/-- A healthy world: one match, factory succeeds, updates accepted. -/
def sampleWorld : World := ⟨.ok [sampleService], .ok (), none, 0, 0, 0⟩

/-- A world whose platform rejects every update. -/
def rejectWorld : World :=
  ⟨.ok [sampleService], .ok (), some "update rejected", 0, 0, 0⟩

/-- A world where no resource matches the app name. -/
def emptyWorld : World := ⟨.ok [], .ok (), none, 0, 0, 0⟩

/-- An env list with a duplicated name, to exercise last-duplicate-wins. -/
def dupEnv : List EnvVar := [⟨"A", "0"⟩, ⟨"A", "9"⟩, ⟨"B", "2"⟩]

/-- A world whose stored resource carries `dupEnv`. -/
def dupWorld : World := ⟨.ok [mkService dupEnv], .ok (), none, 0, 0, 0⟩

/-- The existing env of the worked spec example for Set. -/
def setExampleEnv : List EnvVar := [⟨"A", "0"⟩, ⟨"B", "2"⟩]

/-- A world whose stored resource carries `setExampleEnv`. -/
def setExampleWorld : World :=
  ⟨.ok [mkService setExampleEnv], .ok (), none, 0, 0, 0⟩

/-- C1: for every non-empty app name for which the lister returns exactly
one matching resource, List succeeds and returns the mapping obtained by
inserting each name/value pair of the resource's env list in list order,
so a duplicated name resolves to the value of its last occurrence. -/
theorem listEnv_returns_last_wins_mapping (w : World) (s : Service)
    (app k : String)
    (happ : app ≠ "") (hl : w.listerResult = .ok [s]) :
    (listEnv w app).1 = .ok (envListToMap s.envOf) ∧
    mapLookup (envListToMap s.envOf) k = lastValue s.envOf k := by
  refine ⟨?_, mapLookup_envListToMap s.envOf k⟩
  rw [listEnv_run w app s happ hl]

theorem listEnv_returns_last_wins_mapping_witness :
    (listEnv dupWorld sampleApp).1 =
      .ok (envListToMap (mkService dupEnv).envOf) ∧
    mapLookup (envListToMap (mkService dupEnv).envOf) ("A") =
      lastValue (mkService dupEnv).envOf ("A") :=
  listEnv_returns_last_wins_mapping dupWorld (mkService dupEnv) sampleApp
    ("A") (by decide) rfl

/-- C2: for every non-empty app name with exactly one matching resource,
Set succeeds and persists an env list whose mapping is the existing
pairs collapsed (last duplicate wins) overlaid with the caller-supplied
values, the caller's value winning for any shared name. -/
theorem setEnv_persists_merged_mapping (w : World) (s : Service)
    (app k : String) (values : EnvMap)
    (happ : app ≠ "") (hl : w.listerResult = .ok [s])
    (hf : w.factoryResult = .ok ()) (hu : w.updateError = none)
    (hv : (mapKeys values).Nodup) :
    (setEnv w app values).1 = .ok () ∧
    storedEnv (setEnv w app values).2 =
      some (mapToEnvs (dedupeEnvs values s.envOf)) ∧
    mapLookup (envListToMap (mapToEnvs (dedupeEnvs values s.envOf))) k =
      (match mapLookup values k with
       | some v => some v
       | none => lastValue s.envOf k) := by
  have hrun := setEnv_run w app values s happ hl hf hu
  refine ⟨by rw [hrun], ?_, ?_⟩
  · rw [hrun]
    simp [storedEnv, storedService, Service.envOf, Service.withEnv]
  · rw [envListToMap_mapToEnvs _ (nodup_mapKeys_dedupeEnvs values s.envOf)]
    exact mapLookup_dedupeEnvs values s.envOf k hv

theorem setEnv_persists_merged_mapping_witness :
    (setEnv setExampleWorld sampleApp [("A", "1")]).1 = .ok () ∧
    storedEnv (setEnv setExampleWorld sampleApp [("A", "1")]).2 =
      some (mapToEnvs (dedupeEnvs [("A", "1")] (mkService setExampleEnv).envOf)) ∧
    mapLookup
        (envListToMap (mapToEnvs (dedupeEnvs [("A", "1")]
          (mkService setExampleEnv).envOf))) ("A") =
      (match mapLookup [("A", "1")] ("A") with
       | some v => some v
       | none => lastValue (mkService setExampleEnv).envOf ("A")) :=
  setEnv_persists_merged_mapping setExampleWorld (mkService setExampleEnv)
    sampleApp ("A") [("A", "1")] (by decide) rfl rfl rfl (by decide)

/-- C3: for every non-empty app name with exactly one matching resource,
Unset succeeds and persists the existing env list filtered to the pairs
whose name is not among the given names, survivors keeping their
original relative order. -/
theorem unsetEnv_persists_filtered_list (w : World) (s : Service)
    (app : String) (names : List String)
    (happ : app ≠ "") (hl : w.listerResult = .ok [s])
    (hf : w.factoryResult = .ok ()) (hu : w.updateError = none) :
    (unsetEnv w app names).1 = .ok () ∧
    storedEnv (unsetEnv w app names).2 =
      some (s.envOf.filter (fun e => !(names.contains e.name))) := by
  have hrun := unsetEnv_run w app names s happ hl hf hu
  refine ⟨by rw [hrun], ?_⟩
  rw [← removeEnvs_eq_filter]
  rw [hrun]
  simp [storedEnv, storedService, Service.envOf, Service.withEnv]

theorem unsetEnv_persists_filtered_list_witness :
    (unsetEnv sampleWorld sampleApp ["B"]).1 = .ok () ∧
    storedEnv (unsetEnv sampleWorld sampleApp ["B"]).2 =
      some (sampleService.envOf.filter (fun e => !(["B"].contains e.name))) :=
  unsetEnv_persists_filtered_list sampleWorld sampleService sampleApp
    ["B"] (by decide) rfl rfl rfl

/-- C4: whenever the lister answers with zero matches, or with two or
more, each of List, Set and Unset fails with the one unknown-app error
(the factory having succeeded, so Set and Unset reach the fetch). -/
theorem non_single_match_unknown_app (w : World) (app : String)
    (values : EnvMap) (names : List String) (services : List Service)
    (happ : app ≠ "") (hl : w.listerResult = .ok services)
    (hlen : services.length ≠ 1) (hf : w.factoryResult = .ok ()) :
    (listEnv w app).1 = .error (unknownAppMsg app) ∧
    (setEnv w app values).1 = .error (unknownAppMsg app) ∧
    (unsetEnv w app names).1 = .error (unknownAppMsg app) := by
  have hfetch : ∀ w₁ : World, w₁.listerResult = .ok services →
      fetchService w₁ app =
        (.error (unknownAppMsg app),
         { w₁ with listerCalls := w₁.listerCalls + 1 }) := by
    intro w₁ hl₁
    exact fetchService_not_singleton w₁ app services hl₁ hlen
  refine ⟨?_, ?_, ?_⟩
  · unfold listEnv
    rw [if_neg happ, hfetch w hl]
  · unfold setEnv
    rw [if_neg happ]
    have h₁ := hfetch (World.mk w.listerResult (.ok ()) w.updateError
      w.listerCalls (w.factoryCalls + 1) w.updateCalls) hl
    simp [hf, h₁]
  · unfold unsetEnv
    rw [if_neg happ]
    have h₁ := hfetch (World.mk w.listerResult (.ok ()) w.updateError
      w.listerCalls (w.factoryCalls + 1) w.updateCalls) hl
    simp [hf, h₁]

theorem non_single_match_unknown_app_witness :
    (listEnv emptyWorld sampleApp).1 = .error (unknownAppMsg sampleApp) ∧
    (setEnv emptyWorld sampleApp [("A", "1")]).1 =
      .error (unknownAppMsg sampleApp) ∧
    (unsetEnv emptyWorld sampleApp ["B"]).1 =
      .error (unknownAppMsg sampleApp) :=
  non_single_match_unknown_app emptyWorld sampleApp [("A", "1")] ["B"] []
    (by decide) rfl (by decide) rfl

/-- C5: with the empty app name, List, Set and Unset fail with the
invalid-argument error and return the world untouched: no lister,
factory or update invocation happens (the call counters are unchanged)
and nothing is written. -/
theorem empty_app_name_rejected_without_calls (w : World) (values : EnvMap)
    (names : List String) :
    listEnv w "" = (.error invalidAppNameMsg, w) ∧
    setEnv w "" values = (.error invalidAppNameMsg, w) ∧
    unsetEnv w "" names = (.error invalidAppNameMsg, w) :=
  ⟨rfl, rfl, rfl⟩

/-- C6: whenever Set or Unset returns an error — factory failure, fetch
failure or rejected update — the stored resource is untouched. -/
theorem failed_set_unset_leave_store_unchanged (w : World) (app : String)
    (values : EnvMap) (names : List String) (e₁ e₂ : Err)
    (h₁ : (setEnv w app values).1 = .error e₁)
    (h₂ : (unsetEnv w app names).1 = .error e₂) :
    ((setEnv w app values).2).listerResult = w.listerResult ∧
    ((unsetEnv w app names).2).listerResult = w.listerResult := by
  constructor
  · rcases setEnv_store_changed w app values with h | h
    · exact h
    · rw [h] at h₁
      cases h₁
  · rcases unsetEnv_store_changed w app names with h | h
    · exact h
    · rw [h] at h₂
      cases h₂

theorem failed_set_unset_leave_store_unchanged_witness :
    ((setEnv rejectWorld sampleApp [("A", "1")]).2).listerResult =
      rejectWorld.listerResult ∧
    ((unsetEnv rejectWorld sampleApp ["B"]).2).listerResult =
      rejectWorld.listerResult :=
  failed_set_unset_leave_store_unchanged rejectWorld sampleApp
    [("A", "1")] ["B"] ("update rejected") ("update rejected") rfl rfl

/-- C7: a successful Set followed immediately by List — no external
mutation in between — returns exactly the merged mapping Set wrote. -/
theorem set_then_list_returns_merged_mapping (w : World) (s : Service)
    (app : String) (values : EnvMap)
    (happ : app ≠ "") (hl : w.listerResult = .ok [s])
    (hf : w.factoryResult = .ok ()) (hu : w.updateError = none) :
    (setEnv w app values).1 = .ok () ∧
    (listEnv (setEnv w app values).2 app).1 =
      .ok (dedupeEnvs values s.envOf) := by
  have hrun := setEnv_run w app values s happ hl hf hu
  have h₂ : ((setEnv w app values).2).listerResult =
      .ok [s.withEnv (mapToEnvs (dedupeEnvs values s.envOf))] := by
    rw [hrun]
  refine ⟨by rw [hrun], ?_⟩
  rw [listEnv_run ((setEnv w app values).2) app
      (s.withEnv (mapToEnvs (dedupeEnvs values s.envOf))) happ h₂]
  rw [show (Service.withEnv s (mapToEnvs (dedupeEnvs values s.envOf))).envOf
      = mapToEnvs (dedupeEnvs values s.envOf) from rfl]
  rw [envListToMap_mapToEnvs _ (nodup_mapKeys_dedupeEnvs values s.envOf)]

theorem set_then_list_returns_merged_mapping_witness :
    (setEnv setExampleWorld sampleApp [("A", "1")]).1 = .ok () ∧
    (listEnv (setEnv setExampleWorld sampleApp [("A", "1")]).2 sampleApp).1 =
      .ok (dedupeEnvs [("A", "1")] (mkService setExampleEnv).envOf) :=
  set_then_list_returns_merged_mapping setExampleWorld
    (mkService setExampleEnv) sampleApp [("A", "1")] (by decide) rfl rfl rfl

/-- C8: Unset is idempotent — running it twice with the same names and
no external mutation in between succeeds both times and leaves the same
persisted resource as running it once. -/
theorem unset_twice_same_store (w : World) (s : Service) (app : String)
    (names : List String)
    (happ : app ≠ "") (hl : w.listerResult = .ok [s])
    (hf : w.factoryResult = .ok ()) (hu : w.updateError = none) :
    (unsetEnv w app names).1 = .ok () ∧
    (unsetEnv (unsetEnv w app names).2 app names).1 = .ok () ∧
    ((unsetEnv (unsetEnv w app names).2 app names).2).listerResult =
      ((unsetEnv w app names).2).listerResult := by
  have hrun := unsetEnv_run w app names s happ hl hf hu
  have hl₂ : ((unsetEnv w app names).2).listerResult =
      .ok [s.withEnv (removeEnvs names s.envOf)] := by rw [hrun]
  have hf₂ : ((unsetEnv w app names).2).factoryResult = .ok () := by
    rw [hrun]; exact hf
  have hu₂ : ((unsetEnv w app names).2).updateError = none := by
    rw [hrun]; exact hu
  have hrun₂ := unsetEnv_run ((unsetEnv w app names).2) app names
    (s.withEnv (removeEnvs names s.envOf)) happ hl₂ hf₂ hu₂
  have hidem :
      removeEnvs names ((s.withEnv (removeEnvs names s.envOf)).envOf) =
        removeEnvs names s.envOf := by
    rw [show (s.withEnv (removeEnvs names s.envOf)).envOf
        = removeEnvs names s.envOf from rfl]
    rw [removeEnvs_eq_filter names s.envOf]
    rw [removeEnvs_eq_filter names
      (List.filter (fun e => !(names.contains e.name)) s.envOf)]
    rw [List.filter_filter]
    simp
  have hfinal :
      ((unsetEnv (unsetEnv w app names).2 app names).2).listerResult =
        .ok [(s.withEnv (removeEnvs names s.envOf)).withEnv
          (removeEnvs names ((s.withEnv (removeEnvs names s.envOf)).envOf))] := by
    rw [hrun₂]
  refine ⟨by rw [hrun], by rw [hrun₂], ?_⟩
  rw [hfinal, hl₂, hidem, withEnv_withEnv]

theorem unset_twice_same_store_witness :
    (unsetEnv sampleWorld sampleApp ["B"]).1 = .ok () ∧
    (unsetEnv (unsetEnv sampleWorld sampleApp ["B"]).2 sampleApp ["B"]).1 =
      .ok () ∧
    ((unsetEnv (unsetEnv sampleWorld sampleApp ["B"]).2 sampleApp ["B"]).2).listerResult =
      ((unsetEnv sampleWorld sampleApp ["B"]).2).listerResult :=
  unset_twice_same_store sampleWorld sampleService sampleApp ["B"]
    (by decide) rfl rfl rfl

/-- C9: a successful Set or Unset passes to the platform update the
fetched resource with only its env list replaced: the stored resource is
that full-resource write, every field outside the env list agreeing with
the fetched value. -/
theorem update_replaces_only_env_field (w : World) (s : Service)
    (app : String) (values : EnvMap) (names : List String)
    (happ : app ≠ "") (hl : w.listerResult = .ok [s])
    (hf : w.factoryResult = .ok ()) (hu : w.updateError = none) :
    storedService (setEnv w app values).2 =
      some (s.withEnv (mapToEnvs (dedupeEnvs values s.envOf))) ∧
    sameExceptEnv (s.withEnv (mapToEnvs (dedupeEnvs values s.envOf))) s ∧
    (s.withEnv (mapToEnvs (dedupeEnvs values s.envOf))).envOf =
      mapToEnvs (dedupeEnvs values s.envOf) ∧
    storedService (unsetEnv w app names).2 =
      some (s.withEnv (removeEnvs names s.envOf)) ∧
    sameExceptEnv (s.withEnv (removeEnvs names s.envOf)) s ∧
    (s.withEnv (removeEnvs names s.envOf)).envOf =
      removeEnvs names s.envOf := by
  refine ⟨?_, sameExceptEnv_withEnv s _, rfl, ?_, sameExceptEnv_withEnv s _, rfl⟩
  · rw [setEnv_run w app values s happ hl hf hu]
    rfl
  · rw [unsetEnv_run w app names s happ hl hf hu]
    rfl

theorem update_replaces_only_env_field_witness :
    storedService (setEnv sampleWorld sampleApp [("A", "7")]).2 =
      some (sampleService.withEnv
        (mapToEnvs (dedupeEnvs [("A", "7")] sampleService.envOf))) ∧
    sameExceptEnv (sampleService.withEnv
      (mapToEnvs (dedupeEnvs [("A", "7")] sampleService.envOf))) sampleService ∧
    (sampleService.withEnv
      (mapToEnvs (dedupeEnvs [("A", "7")] sampleService.envOf))).envOf =
      mapToEnvs (dedupeEnvs [("A", "7")] sampleService.envOf) ∧
    storedService (unsetEnv sampleWorld sampleApp ["C"]).2 =
      some (sampleService.withEnv (removeEnvs ["C"] sampleService.envOf)) ∧
    sameExceptEnv (sampleService.withEnv
      (removeEnvs ["C"] sampleService.envOf)) sampleService ∧
    (sampleService.withEnv (removeEnvs ["C"] sampleService.envOf)).envOf =
      removeEnvs ["C"] sampleService.envOf :=
  update_replaces_only_env_field sampleWorld sampleService sampleApp
    [("A", "7")] ["C"] (by decide) rfl rfl rfl

/-- An env list holding the same name twice, for the C10 instance. -/
def dupBEnv : List EnvVar :=
  [⟨"A", "1"⟩, ⟨"B", "2"⟩, ⟨"B", "9"⟩, ⟨"C", "3"⟩]

/-- A world whose stored resource carries `dupBEnv`. -/
def dupBWorld : World := ⟨.ok [mkService dupBEnv], .ok (), none, 0, 0, 0⟩

/-- C10: removal is decided per pair by membership of the pair's name in
the removal set, so Unset with a name that occurs several times in the
env list drops every one of its occurrences from the persisted list. -/
theorem unset_removes_all_occurrences (w : World) (s : Service)
    (app n : String) (names : List String)
    (happ : app ≠ "") (hl : w.listerResult = .ok [s])
    (hf : w.factoryResult = .ok ()) (hu : w.updateError = none)
    (hn : n ∈ names) :
    (unsetEnv w app names).1 = .ok () ∧
    storedEnv (unsetEnv w app names).2 = some (removeEnvs names s.envOf) ∧
    (removeEnvs names s.envOf).all (fun e => e.name != n) = true := by
  have hrun := unsetEnv_run w app names s happ hl hf hu
  refine ⟨by rw [hrun], by rw [hrun]; rfl, ?_⟩
  rw [removeEnvs_eq_filter, List.all_eq_true]
  intro e he
  rw [List.mem_filter] at he
  have hmem : e.name ∉ names := by
    have h₂ := he.2
    simp at h₂
    exact h₂
  simp only [bne_iff_ne, ne_eq]
  intro heq
  exact hmem (by rw [heq]; exact hn)

theorem unset_removes_all_occurrences_witness :
    (unsetEnv dupBWorld sampleApp ["B"]).1 = .ok () ∧
    storedEnv (unsetEnv dupBWorld sampleApp ["B"]).2 =
      some (removeEnvs ["B"] (mkService dupBEnv).envOf) ∧
    (removeEnvs ["B"] (mkService dupBEnv).envOf).all
      (fun e => e.name != "B") = true :=
  unset_removes_all_occurrences dupBWorld (mkService dupBEnv) sampleApp
    ("B") ["B"] (by decide) rfl rfl rfl (by decide)
